import Mathlib

/-!
# Verification of the Renee A→B spreadsheet converter (`transform.py`)

Shallow embedding of the extraction-and-reconciliation engine:

* Python cell values are modelled by `PyVal` (None, int, float, str, and any
  other object represented by its `str()` rendering).  Python floats are
  modelled by `PyFloat`: a finite float is an exact rational (every finite
  binary64 value is rational), plus `nan` / `inf` / `-inf`.
* Functions that can raise (`int(v)` / `round(v)` on non-finite floats)
  return `Except PyErr _`; everything else is a total function.
* Worksheets are modelled by their value grid (`Nat → Nat → PyVal`, 1-based)
  together with `max_row`; formatting (fonts, fills, column widths) carries
  no values and is not modelled.
-/

deriving instance DecidableEq for Except

/-- A Python float value.  Finite binary64 values are exact rationals; the
model also carries the non-finite values, on which `int()`/`round()` raise. -/
inductive PyFloat where
  | finite (q : ℚ)
  | nan
  | inf
  | ninf
deriving DecidableEq, Repr

/-- Exceptions raised by the value-conversion builtins used in the source:
`int(float('nan'))` / `round(float('nan'))` raise `ValueError`,
`int(float('inf'))` / `round(float('inf'))` raise `OverflowError`. -/
inductive PyErr where
  | valueError
  | overflowError
deriving DecidableEq, Repr

/-- A Python value as it occurs in a worksheet cell or as an argument to the
normalizer functions.  `other s` stands for a value of any further type
(e.g. `datetime`), carrying the string `str(v)` would produce for it. -/
inductive PyVal where
  | none
  | int (n : ℤ)
  | float (f : PyFloat)
  | str (s : String)
  | other (s : String)
deriving DecidableEq, Repr

/-- The whitespace characters stripped by `str.strip()` and matched by the
regex class `\s` (modelled over their common ASCII core:
space, tab, newline, carriage return, vertical tab, form feed). -/
def pyIsSpace (c : Char) : Bool :=
  c = ' ' || c = '\t' || c = '\n' || c = '\r' || c = Char.ofNat 11 || c = Char.ofNat 12

/-- Strip `pyIsSpace` characters from both ends of a character list
(`str.strip()`). -/
def stripChars (l : List Char) : List Char :=
  ((l.dropWhile pyIsSpace).reverse.dropWhile pyIsSpace).reverse

/-- `s.strip()`. -/
def pyStrip (s : String) : String := ⟨stripChars s.data⟩

/-- `s.lower()` (ASCII; the header texts this is applied to are ASCII). -/
def pyLower (s : String) : String := ⟨s.data.map Char.toLower⟩

/-- `s.upper()` (ASCII; blade codes and style labels are normalized with it). -/
def pyUpper (s : String) : String := ⟨s.data.map Char.toUpper⟩

/-- `str(f)` for a float.  Python prints the shortest round-tripping decimal;
no claim depends on the exact digits, only on the rendering being a
non-empty, non-whitespace string, which this model preserves. -/
def pyStrFloat : PyFloat → String
  | .finite q => toString q.num ++ (if q.den = 1 then ".0" else "e" ++ toString q.den)
  | .nan => "nan"
  | .inf => "inf"
  | .ninf => "-inf"

/-- `str(v)`. -/
def pyStr : PyVal → String
  | .none => "None"
  | .int n => toString n
  | .float f => pyStrFloat f
  | .str s => s
  | .other s => s

/-- `has_non_ascii` (transform.py line 57): any character with code point
above 127. -/
def has_non_ascii (s : String) : Bool :=
  s.data.any (fun c => 127 < c.toNat)

/-- `norm_text` (line 60): `None` stays absent, anything else is stringified
and stripped, with the empty result becoming absent. -/
def norm_text (v : PyVal) : Option String :=
  match v with
  | .none => Option.none
  | v => (fun s => if s = "" then Option.none else some s) (pyStrip (pyStr v))

/-- `norm_model` (line 66). -/
def norm_model (v : PyVal) : Option String := norm_text v

/-- `norm_blade` (line 69): `norm_text` then upper-case. -/
def norm_blade (v : PyVal) : Option String :=
  match norm_text v with
  | some s => some (pyUpper s)
  | Option.none => Option.none

/-- `norm_style` (line 73): same as `norm_blade`. -/
def norm_style (v : PyVal) : Option String :=
  match norm_text v with
  | some s => some (pyUpper s)
  | Option.none => Option.none

/-- `norm_style` applied to an `Optional[str]` argument (as in
`norm_style(style)` on line 239 and `norm_style(style_from_model)` on
line 318). -/
def norm_style_o (o : Option String) : Option String :=
  match o with
  | some s => norm_style (.str s)
  | Option.none => Option.none

/-- Python truthiness of an `Optional[str]`: `None` and `""` are falsy. -/
def truthyS : Option String → Bool
  | Option.none => false
  | some s => !(s = "")

/-- Python `a or b` on `Optional[str]` values. -/
def pyOrS (a b : Option String) : Option String :=
  if truthyS a then a else b

/-- Normalize full-width parentheses to ASCII
(`s.replace("（", "(").replace("）", ")")`; both patterns are single
characters, so the replacement is character-wise). -/
def fwChar (c : Char) : Char :=
  if c = '（' then '(' else if c = '）' then ')' else c

/-- The full-width-parenthesis normalization of line 91. -/
def fwNorm (s : String) : String := ⟨s.data.map fwChar⟩

/-- The match of `re.match(r"^(.*?)\s*\(([^()]*)\)\s*$", s)` (line 94),
returning `(group 1, group 2)` on success.  Derived semantics of this
anchored pattern: after discarding trailing whitespace the string must end
in `)`; the matching `(` is the last `(` of the string (an earlier one
would put a parenthesis inside `[^()]*`); no `)` may stand between them;
group 1 is the prefix with its trailing whitespace stripped (the lazy
`.*?` yields the shortest prefix) and, since `.` does not match a newline,
group 1 may not contain `'\n'`. -/
def splitMatch (l : List Char) : Option (List Char × List Char) :=
  let t := (l.reverse.dropWhile pyIsSpace).reverse
  match t.getLast? with
  | some ')' =>
    let body := t.dropLast
    let revBody := body.reverse
    match revBody.dropWhile (fun c => c ≠ '(') with
    | [] => Option.none
    | _ :: preRev =>
      let inner := (revBody.takeWhile (fun c => c ≠ '(')).reverse
      let pre := preRev.reverse
      if inner.any (fun c => c = ')') then Option.none
      else
        let a := (pre.reverse.dropWhile pyIsSpace).reverse
        if a.any (fun c => c = '\n') then Option.none
        else some (a, inner)
  | _ => Option.none

/-- `split_model_and_style` (lines 77–100): extract a trailing parenthetical
style from a model label, supporting full-width parentheses. -/
def split_model_and_style (v : PyVal) : Option String × Option String :=
  match norm_model v with
  | Option.none => (Option.none, Option.none)
  | some s =>
    let sn := pyStrip (fwNorm s)
    match splitMatch sn.data with
    | Option.none => (some sn, Option.none)
    | some (a, inner) =>
      let base := if pyStrip ⟨a⟩ = "" then sn else pyStrip ⟨a⟩
      let style := if pyStrip ⟨inner⟩ = "" then Option.none else some (pyStrip ⟨inner⟩)
      (some base, style)

/-- Is `c` one of the ASCII digits `0`–`9`?  (Python's `\d` also matches
non-ASCII Unicode decimal digits; every digit run the program and the
claims deal with is ASCII, and under defect exclusion non-ASCII strings
are rejected before the digit search even runs.) -/
def isPyDigit (c : Char) : Bool := '0' ≤ c && c ≤ '9'

/-- The first contiguous digit run of a character list
(`re.search(r"\d+", s)` and `m.group(0)`). -/
def digitRunAt : List Char → Option (List Char)
  | [] => Option.none
  | c :: cs => if isPyDigit c then some (c :: cs.takeWhile isPyDigit) else digitRunAt cs

/-- The value of a digit run (`int(m.group(0))`). -/
def digitsToInt (l : List Char) : ℤ :=
  l.foldl (fun acc c => 10 * acc + ((c.toNat : ℤ) - 48)) 0

/-- `int(re.search(r"\d+", s).group(0))` with absent on no match. -/
def firstDigitInt (s : String) : Option ℤ :=
  (digitRunAt s.data).map digitsToInt

/-- Python `round(q)` for a finite float: round half to even, returning an
integer. -/
def pyRound (q : ℚ) : ℤ :=
  let f : ℤ := ⌊q⌋
  let frac := q - (f : ℚ)
  if frac < 1/2 then f
  else if 1/2 < frac then f + 1
  else if f % 2 = 0 then f else f + 1

/-- Python `int(q)` for a finite float: truncation toward zero. -/
def pyTrunc (q : ℚ) : ℤ :=
  if 0 ≤ q then ⌊q⌋ else ⌈q⌉

/-- `parse_flex` (lines 102–112).  `int(round(v))` raises on non-finite
floats (`round` cannot convert NaN/infinity to an integer). -/
def parse_flex (v : PyVal) : Except PyErr (Option ℤ) :=
  match v with
  | .none => .ok Option.none
  | .int n => .ok (some n)
  | .float (.finite q) => .ok (some (pyRound q))
  | .float .nan => .error .valueError
  | .float .inf => .error .overflowError
  | .float .ninf => .error .overflowError
  | .str s => .ok (firstDigitInt s)
  | .other _ => .ok Option.none

/-- `parse_qty` (lines 114–137).  On a finite float within `1e-9` of an
integer it rounds, otherwise `int(v)` truncates; on NaN/infinity
`math.isfinite` is false and `int(v)` raises.  A string is stripped,
excluded if defect exclusion is on and it contains a non-ASCII character,
and otherwise yields its first digit run. -/
def parse_qty (v : PyVal) (defect_exclusion : Bool) : Except PyErr (Option ℤ) :=
  match v with
  | .none => .ok Option.none
  | .int n => .ok (some n)
  | .float (.finite q) =>
    if |q - (pyRound q : ℚ)| < 1/1000000000 then .ok (some (pyRound q))
    else .ok (some (pyTrunc q))
  | .float .nan => .error .valueError
  | .float .inf => .error .overflowError
  | .float .ninf => .error .overflowError
  | .str s =>
    let t := pyStrip s
    if t = "" then .ok Option.none
    else if defect_exclusion && has_non_ascii t then .ok Option.none
    else .ok (firstDigitInt t)
  | .other _ => .ok Option.none

/-! ## Worksheet model -/

/-- A worksheet seen through its cell values: `cells r c` is
`ws.cell(r, c).value` (1-based row/column), `maxRow` is `ws.max_row`.
Formatting attributes carry no cell values and are not modelled. -/
structure Sheet where
  cells : Nat → Nat → PyVal
  maxRow : Nat

/-- `ws.cell(r, c).value`. -/
def Sheet.get (sh : Sheet) (r c : Nat) : PyVal := sh.cells r c

/-- `ws.cell(r, c).value = v`. -/
def Sheet.set (sh : Sheet) (r c : Nat) (v : PyVal) : Sheet :=
  ⟨fun r' c' => if r' = r ∧ c' = c then v else sh.cells r' c', sh.maxRow⟩

theorem Sheet.get_set (sh : Sheet) (r c r' c' : Nat) (v : PyVal) :
    (sh.set r c v).get r' c' = if r' = r ∧ c' = c then v else sh.get r' c' := rfl

theorem Sheet.get_set_ne (sh : Sheet) (r c r' c' : Nat) (v : PyVal)
    (h : r' ≠ r ∨ c' ≠ c) : (sh.set r c v).get r' c' = sh.get r' c' := by
  rw [Sheet.get_set]
  rcases h with h | h <;> simp [h]

/-- Substring containment, Python's `needle in haystack` on strings. -/
def listInfix (needle : List Char) : List Char → Bool
  | [] => needle.isEmpty
  | c :: t => needle.isPrefixOf (c :: t) || listInfix needle t

/-- `needle in haystack` for strings. -/
def containsSub (hay needle : String) : Bool := listInfix needle.data hay.data

/-- The normalized header text of column C
(`str(header_c).strip().lower() if header_c is not None else ""`,
lines 169–170). -/
def headerC (sh : Sheet) : String :=
  match sh.get 1 3 with
  | .none => ""
  | v => pyLower (pyStrip (pyStr v))

/-- `ensure_style_column` (lines 159–197): if the column-C header does not
already mention style/color, insert a new column C and label it
"Style/Color".  The formatting copy and the column-width transfer touch no
cell values and are not modelled. -/
def ensure_style_column (sh : Sheet) : Sheet :=
  if containsSub (headerC sh) "style" || containsSub (headerC sh) "color" then sh
  else
    let sh1 : Sheet :=
      ⟨fun r c => if c < 3 then sh.cells r c
                  else if c = 3 then .none
                  else sh.cells r (c - 1),
       sh.maxRow⟩
    sh1.set 1 3 (.str "Style/Color")

/-! ## Template reconciliation (`apply_to_b_template`, lines 268–361) -/

/-- The aggregated inventory: the Python dict mapping keys
`(model_base, style, blade, flex)` to `(left, right)` totals. -/
abbrev Key := String × Option String × String × ℤ

/-- A key's dict entry, `Option` for "key absent from the dict". -/
abbrev InvMap := Key → Option (Option ℤ × Option ℤ)

/-- `inv.get(key, (None, None))` (line 356). -/
def invGet (inv : InvMap) (k : Key) : Option ℤ × Option ℤ := (inv k).getD (Option.none, Option.none)

/-- Writing a quantity or a blank into a cell (lines 358–359). -/
def cellOfQty : Option ℤ → PyVal
  | Option.none => .none
  | some n => .int n

/-- The blankness test of `row_has_any` (line 291): `v in (None, "")` is an
equality test against `None` and the empty string. -/
def cellBlankE (v : PyVal) : Bool := v = .none || v = .str ""

/-- `row_has_any(r)` (lines 288–293) over the six data columns. -/
def rowHasAny (sh : Sheet) (r : Nat) : Bool :=
  [2, 3, 4, 5, 6, 7].any (fun c => !cellBlankE (sh.get r c))

/-- The `while last_row > 1 and not row_has_any(last_row)` scan
(lines 295–297), starting from `max_row`. -/
def lastPopulatedRow (sh : Sheet) : Nat → Nat
  | 0 => 0
  | 1 => 1
  | n + 2 => if rowHasAny sh (n + 2) then n + 2 else lastPopulatedRow sh (n + 1)

def lastRowOf (sh : Sheet) : Nat := lastPopulatedRow sh sh.maxRow

/-- `range(2, last_row + 1)`. -/
def dataRows (lastRow : Nat) : List Nat := List.range' 2 (lastRow - 1)

/-- The clear pass (lines 299–302): blank Left/Right on every data row. -/
def clearLR (sh : Sheet) : List Nat → Sheet
  | [] => sh
  | r :: rs => clearLR ((sh.set r 6 .none).set r 7 .none) rs

/-- The blankness test of the fill-down write-back (lines 345, 347, 349):
`value is None or str(value).strip() == ""`. -/
def cellBlankW (v : PyVal) : Bool :=
  match v with
  | .none => true
  | v => pyStrip (pyStr v) = ""

/-- The running fill-down state (`current_model`, `current_style`,
`current_blade`, lines 304–306). -/
structure ScanState where
  currentModel : Option String
  currentStyle : Option String
  currentBlade : Option String
deriving DecidableEq

/-- Everything one loop iteration (lines 308–359) computes for a row: the
updated running state, the final values of the Model/Style/Blade cells,
the working `model`/`style`/`blade` locals, and the lookup key (absent
when the row is skipped by line 352's `continue`). -/
structure RowOutcome where
  st : ScanState
  mCell : PyVal
  sCell : PyVal
  bCell : PyVal
  wModel : Option String
  wStyle : Option String
  wBlade : Option String
  key : Option Key
deriving DecidableEq

/-- The pure per-row logic of one reconciliation iteration, given the row's
Model/Style/Blade cell values and the already-parsed flex.  Cell
mutations are modelled by recording each cell's final value (writing a
cell's current value back is the identity). -/
def reconRow (fd : Bool) (st : ScanState) (mv sv bv : PyVal) (flex : Option ℤ) : RowOutcome :=
  let p := split_model_and_style mv
  let base_model_here := p.1
  let style_from_model := p.2
  let style_here := pyOrS (norm_style sv) (norm_style_o style_from_model)
  let blade_here := norm_blade bv
  let m1 := if truthyS base_model_here && truthyS style_from_model
            then PyVal.str (base_model_here.getD "") else mv
  let model_changed := base_model_here.isSome && decide (base_model_here ≠ st.currentModel)
  let cs0 := if model_changed && !truthyS style_here then Option.none else st.currentStyle
  let cm := if truthyS base_model_here then base_model_here else st.currentModel
  let cs := if truthyS style_here then style_here else cs0
  let cb := if truthyS blade_here then blade_here else st.currentBlade
  let model := pyOrS base_model_here (if fd then cm else Option.none)
  let style := pyOrS style_here (if fd then cs else Option.none)
  let blade := pyOrS blade_here (if fd then cb else Option.none)
  let m2 := if fd && cellBlankW m1 && truthyS model then PyVal.str (model.getD "") else m1
  let s2 := if fd && cellBlankW sv && truthyS style then PyVal.str (style.getD "") else sv
  let b2 := if fd && cellBlankW bv && truthyS blade then PyVal.str (blade.getD "") else bv
  let key := match model, blade, flex with
    | some m, some b, some f => some ((m, style, b, f) : Key)
    | _, _, _ => Option.none
  ⟨⟨cm, cs, cb⟩, m2, s2, b2, model, style, blade, key⟩

/-- One iteration of the reconciliation loop on the sheet: parse flex (the
only fallible step), run the per-row logic, store the resulting cell
values, and on a complete key write the looked-up quantities. -/
def rowStep (inv : InvMap) (fd : Bool) (r : Nat) (st : ScanState) (sh : Sheet) :
    Except PyErr (ScanState × Sheet) :=
  match parse_flex (sh.get r 5) with
  | .error e => .error e
  | .ok flex =>
    let o := reconRow fd st (sh.get r 2) (sh.get r 3) (sh.get r 4) flex
    let sh2 := ((sh.set r 2 o.mCell).set r 3 o.sCell).set r 4 o.bCell
    match o.key with
    | Option.none => .ok (o.st, sh2)
    | some k =>
      .ok (o.st, (sh2.set r 6 (cellOfQty (invGet inv k).1)).set r 7 (cellOfQty (invGet inv k).2))

/-- The reconciliation loop over the data rows. -/
def foldRowsM (inv : InvMap) (fd : Bool) : List Nat → ScanState → Sheet → Except PyErr Sheet
  | [], _, sh => .ok sh
  | r :: rs, st, sh =>
    match rowStep inv fd r st sh with
    | .error e => .error e
    | .ok (st', sh') => foldRowsM inv fd rs st' sh'

/-- `apply_to_b_template` (lines 268–361), minus workbook I/O: ensure the
style column, find the last populated row, clear Left/Right, then run the
reconciliation loop. -/
def apply_to_b (sh : Sheet) (inv : InvMap) (fd : Bool) : Except PyErr Sheet :=
  let s1 := ensure_style_column sh
  let lr := lastRowOf s1
  let s2 := clearLR s1 (dataRows lr)
  foldRowsM inv fd (dataRows lr) ⟨Option.none, Option.none, Option.none⟩ s2

/-- One output cell of the reconciliation (projection with decidable
equality, for concrete runs). -/
def applyCellAt (sh : Sheet) (inv : InvMap) (fd : Bool) (r c : Nat) : Except PyErr PyVal :=
  match apply_to_b sh inv fd with
  | .error e => .error e
  | .ok o => .ok (o.get r c)

/-- `parse_flex` collapsed to its value (used only to state the pure scan;
wherever it is consulted the run is hypothesised error-free, under which
it coincides with `parse_flex`). -/
def flexOf (v : PyVal) : Option ℤ :=
  match parse_flex v with
  | .ok o => o
  | .error _ => Option.none

/-- The per-row outcome read off the (post-`ensure_style_column`) sheet. -/
def outcomeStep (fd : Bool) (sh : Sheet) (st : ScanState) (r : Nat) : RowOutcome :=
  reconRow fd st (sh.get r 2) (sh.get r 3) (sh.get r 4) (flexOf (sh.get r 5))

/-- The running state after scanning a list of rows. -/
def scanStateAt (sh : Sheet) (fd : Bool) : List Nat → ScanState → ScanState
  | [], st => st
  | r :: rs, st => scanStateAt sh fd rs (outcomeStep fd sh st r).st

/-- The outcome of row `r` in the full scan that starts at row 2. -/
def rowOutcomeAt (sh : Sheet) (fd : Bool) (r : Nat) : RowOutcome :=
  outcomeStep fd sh
    (scanStateAt sh fd (List.range' 2 (r - 2)) ⟨Option.none, Option.none, Option.none⟩) r

/-! ## Inventory aggregation (`build_inventory_from_a`, lines 204–261) -/

/-- A merged cell range of sheet A (rectangle, 1-based inclusive bounds). -/
structure MRange where
  minRow : Nat
  maxRow : Nat
  minCol : Nat
  maxCol : Nat
deriving DecidableEq

/-- Sheet A: the value grid, `max_row`, and the merged ranges. -/
structure ASheet where
  cells : Nat → Nat → PyVal
  maxRow : Nat
  merged : List MRange

/-- Membership of a coordinate in a merged rectangle. -/
def inMRange (g : MRange) (r c : Nat) : Bool :=
  g.minRow ≤ r && r ≤ g.maxRow && g.minCol ≤ c && c ≤ g.maxCol

/-- `merged_top_left_value` (lines 144–152): the first merged range
containing the cell supplies its top-left value, else the cell's own. -/
def merged_top_left_value (ws : ASheet) (r c : Nat) : PyVal :=
  match ws.merged.find? (fun g => inMRange g r c) with
  | some g => ws.cells g.minRow g.minCol
  | Option.none => ws.cells r c

/-- One fixed column block of sheet A. -/
structure Block where
  model_col : Nat
  blade_col : Nat
  flex_col : Nat
  left_col : Nat
  right_col : Nat

/-- The three hockey-stick blocks (lines 211–215): B–F, H–L, N–R. -/
def blocksA : List Block := [⟨2, 3, 4, 5, 6⟩, ⟨8, 9, 10, 11, 12⟩, ⟨14, 15, 16, 17, 18⟩]

/-- The per-block fill-down state (`current_model_raw`, `current_blade_raw`,
lines 220–221); the raw cell values are remembered, not their
normalizations. -/
structure AState where
  currentModelRaw : PyVal
  currentBladeRaw : PyVal
deriving DecidableEq

/-- What one A row adds to the accumulator: its key and its parsed
left/right quantities (absent quantities add nothing). -/
abbrev Contrib := Key × Option ℤ × Option ℤ

instance : DecidableEq Contrib := inferInstance

/-- The accumulating dict `summed` (line 217): present keys map to their
running `(L, R)` sums; `defaultdict` creates an entry (initialised to
`(0, 0)`) the first time a key is touched by an addition. -/
abbrev Summed := Key → Option (ℤ × ℤ)

def emptySummed : Summed := fun _ => Option.none

/-- `summed[key]["L"] += dL` / `summed[key]["R"] += dR`: touch the entry
(creating it at `(0, 0)` if absent) and add. -/
def touchAdd (m : Summed) (k : Key) (dL dR : ℤ) : Summed :=
  fun k' => if k' = k
    then some ((((m k).getD (0, 0)).1 + dL), (((m k).getD (0, 0)).2 + dR))
    else m k'

/-- Lines 250–253: add the left quantity if present, then the right. -/
def applyContrib (m : Summed) (c : Contrib) : Summed :=
  let m1 := match c.2.1 with
    | some x => touchAdd m c.1 x 0
    | Option.none => m
  match c.2.2 with
  | some x => touchAdd m1 c.1 0 x
  | Option.none => m1

/-- One row of one block (lines 224–253): resolve merged cells, update the
fill-down state, build the key, and parse the quantities.  Returns the
updated state and the row's contribution (`none` when line 243's
`continue` skips the row).  `parse_flex` runs before the completeness
check and `parse_qty` only after it, exactly as in the source. -/
def scanRowA (ws : ASheet) (de : Bool) (blk : Block) (r : Nat) (st : AState) :
    Except PyErr (AState × Option Contrib) :=
  let model_v := merged_top_left_value ws r blk.model_col
  let blade_v := merged_top_left_value ws r blk.blade_col
  let flex_v := ws.cells r blk.flex_col
  let left_v := ws.cells r blk.left_col
  let right_v := ws.cells r blk.right_col
  let cmr := if truthyS (norm_model model_v) then model_v else st.currentModelRaw
  let cbr := if truthyS (norm_blade blade_v) then blade_v else st.currentBladeRaw
  let model_use := if truthyS (norm_model model_v) then model_v else cmr
  let blade_use := if truthyS (norm_blade blade_v) then blade_v else cbr
  let p := split_model_and_style model_use
  let style := norm_style_o p.2
  let blade := norm_blade blade_use
  match parse_flex flex_v with
  | .error e => .error e
  | .ok flex =>
    match p.1, blade, flex with
    | some mb, some bl, some fx =>
      match parse_qty left_v de with
      | .error e => .error e
      | .ok L =>
        match parse_qty right_v de with
        | .error e => .error e
        | .ok R => .ok (⟨cmr, cbr⟩, some (((mb, style, bl, fx) : Key), L, R))
    | _, _, _ => .ok (⟨cmr, cbr⟩, Option.none)

/-- The row loop of one block (lines 223–253), threading the shared dict. -/
def blockRowsM (ws : ASheet) (de : Bool) (blk : Block) :
    List Nat → AState → Summed → Except PyErr Summed
  | [], _, m => .ok m
  | r :: rs, st, m =>
    match scanRowA ws de blk r st with
    | .error e => .error e
    | .ok (st', c) =>
      blockRowsM ws de blk rs st'
        (match c with
         | some c => applyContrib m c
         | Option.none => m)

/-- `range(5, ws_a.max_row + 1)` (line 223). -/
def aRows (ws : ASheet) : List Nat := List.range' 5 (ws.maxRow - 4)

/-- The block loop (line 219): each block starts with fresh fill-down state;
the dict is shared across blocks. -/
def blocksFoldM (ws : ASheet) (de : Bool) : List Block → Summed → Except PyErr Summed
  | [], m => .ok m
  | b :: bs, m =>
    match blockRowsM ws de b (aRows ws) ⟨.none, .none⟩ m with
    | .error e => .error e
    | .ok m' => blocksFoldM ws de bs m'

/-- The final collapse (lines 255–259): keep positive sums, blank the rest. -/
def collapsePair (p : ℤ × ℤ) : Option ℤ × Option ℤ :=
  (if 0 < p.1 then some p.1 else Option.none, if 0 < p.2 then some p.2 else Option.none)

/-- `build_inventory_from_a` (lines 204–261), minus workbook I/O. -/
def build_inventory (ws : ASheet) (de : Bool) : Except PyErr InvMap :=
  match blocksFoldM ws de blocksA emptySummed with
  | .error e => .error e
  | .ok m => .ok (fun k => (m k).map collapsePair)

/-- The inventory evaluated at one key (projection with decidable equality,
for concrete runs). -/
def invAt (ws : ASheet) (de : Bool) (k : Key) :
    Except PyErr (Option (Option ℤ × Option ℤ)) :=
  match build_inventory ws de with
  | .error e => .error e
  | .ok inv => .ok (inv k)

/-- The contribution list of one block, in scan order. -/
def blockContribs (ws : ASheet) (de : Bool) (blk : Block) :
    List Nat → AState → Except PyErr (List Contrib)
  | [], _ => .ok []
  | r :: rs, st =>
    match scanRowA ws de blk r st with
    | .error e => .error e
    | .ok (st', c) =>
      match blockContribs ws de blk rs st' with
      | .error e => .error e
      | .ok l => .ok (match c with
        | some c => c :: l
        | Option.none => l)

/-- The contribution lists of a list of blocks, concatenated. -/
def blocksContribs (ws : ASheet) (de : Bool) : List Block → Except PyErr (List Contrib)
  | [] => .ok []
  | b :: bs =>
    match blockContribs ws de b (aRows ws) ⟨.none, .none⟩ with
    | .error e => .error e
    | .ok l =>
      match blocksContribs ws de bs with
      | .error e => .error e
      | .ok l' => .ok (l ++ l')

/-- All contributions an A sheet produces, in the order the source
accumulates them. -/
def contribsA (ws : ASheet) (de : Bool) : Except PyErr (List Contrib) :=
  blocksContribs ws de blocksA

/-- Does contribution `c` touch key `k` (create/update its dict entry)? -/
def contribTouches (k : Key) (c : Contrib) : Bool :=
  c.1 = k && (c.2.1.isSome || c.2.2.isSome)

/-- The left-side sum of the contributions for key `k`. -/
def sumLC (k : Key) (l : List Contrib) : ℤ :=
  (l.filterMap (fun c => if c.1 = k then c.2.1 else Option.none)).sum

/-- The right-side sum of the contributions for key `k`. -/
def sumRC (k : Key) (l : List Contrib) : ℤ :=
  (l.filterMap (fun c => if c.1 = k then c.2.2 else Option.none)).sum

/-! ## Helper lemmas: stripping -/

theorem stripChars_eq (l : List Char) :
    stripChars l = List.rdropWhile pyIsSpace (l.dropWhile pyIsSpace) := rfl

theorem dropWhile_strip_self (l : List Char) :
    (stripChars l).dropWhile pyIsSpace = stripChars l := by
  rw [stripChars_eq]
  rcases h : List.rdropWhile pyIsSpace (l.dropWhile pyIsSpace) with _ | ⟨c, t⟩
  · rfl
  · have hpre := List.rdropWhile_prefix pyIsSpace (l.dropWhile pyIsSpace)
    rw [h] at hpre
    have hlen : 0 < (l.dropWhile pyIsSpace).length :=
      hpre.length_le.trans_lt' (by simp)
    have hc : (c :: t)[0] = (l.dropWhile pyIsSpace)[0] := hpre.getElem (by simp)
    have hd : (l.dropWhile pyIsSpace).dropWhile pyIsSpace = l.dropWhile pyIsSpace :=
      List.dropWhile_idempotent pyIsSpace l
    rw [List.dropWhile_eq_self_iff] at hd ⊢
    intro h0
    have := hd (by exact (List.length_pos.mpr (by
      intro hn
      rw [hn] at hpre
      exact absurd (List.prefix_nil.mp hpre) (by simp))))
    simpa [List.get_mk_zero, ← hc] using this

theorem stripChars_idem (l : List Char) : stripChars (stripChars l) = stripChars l := by
  rw [stripChars_eq (stripChars l), dropWhile_strip_self, stripChars_eq,
    List.rdropWhile_idempotent]

theorem pyStrip_idem (s : String) : pyStrip (pyStrip s) = pyStrip s := by
  unfold pyStrip
  exact congrArg String.mk (stripChars_idem s.data)

theorem stripChars_eq_nil_iff (l : List Char) :
    stripChars l = [] ↔ ∀ x ∈ l, pyIsSpace x := by
  rw [stripChars_eq, List.rdropWhile_eq_nil_iff]
  constructor
  · intro h x hx
    rcases List.mem_append.mp (by
      rw [List.takeWhile_append_dropWhile pyIsSpace l]
      exact hx : x ∈ l.takeWhile pyIsSpace ++ l.dropWhile pyIsSpace) with h1 | h2
    · exact List.mem_takeWhile_imp h1
    · exact h x h2
  · intro h x hx
    exact h x ((List.dropWhile_sublist pyIsSpace).mem hx)

theorem stripChars_exists_nonspace (l : List Char) (h : stripChars l ≠ []) :
    ∃ x ∈ stripChars l, pyIsSpace x = false := by
  by_contra hc
  push_neg at hc
  exact h (by
    rw [← stripChars_idem l]
    exact (stripChars_eq_nil_iff (stripChars l)).mpr (by
      intro x hx
      simpa using hc x hx))

theorem pyStrip_ne_empty_iff (s : String) :
    pyStrip s = "" ↔ ∀ x ∈ s.data, pyIsSpace x := by
  constructor
  · intro h
    exact (stripChars_eq_nil_iff s.data).mp (congrArg String.data h)
  · intro h
    unfold pyStrip
    rw [(stripChars_eq_nil_iff s.data).mpr h]

/-! ## Helper lemmas: normalization and split -/

theorem strip_ite_some (t s : String)
    (ht : (if pyStrip t = "" then Option.none else some (pyStrip t)) = some s) :
    s ≠ "" ∧ pyStrip s = s := by
  by_cases he : pyStrip t = ""
  · rw [if_pos he] at ht
    exact absurd ht (by simp)
  · rw [if_neg he] at ht
    have hs := Option.some.inj ht
    constructor
    · rw [← hs]
      exact he
    · rw [← hs, pyStrip_idem]

/-- The payload of a successful `norm_text` is a non-empty, fully stripped
string. -/
theorem norm_text_some (v : PyVal) (s : String) (h : norm_text v = some s) :
    s ≠ "" ∧ pyStrip s = s := by
  cases v with
  | none => exact absurd h (by simp [norm_text])
  | int n => exact strip_ite_some (pyStr (.int n)) s (by simpa [norm_text] using h)
  | float f => exact strip_ite_some (pyStr (.float f)) s (by simpa [norm_text] using h)
  | str t => exact strip_ite_some (pyStr (.str t)) s (by simpa [norm_text] using h)
  | other t => exact strip_ite_some (pyStr (.other t)) s (by simpa [norm_text] using h)

/-- Full-width parenthesis normalization maps non-whitespace characters to
non-whitespace characters. -/
theorem fwChar_nonspace (c : Char) (h : pyIsSpace c = false) :
    pyIsSpace (fwChar c) = false := by
  unfold fwChar
  by_cases h1 : c = '（'
  · rw [if_pos h1]
    decide
  · rw [if_neg h1]
    by_cases h2 : c = '）'
    · rw [if_pos h2]
      decide
    · rw [if_neg h2]
      exact h

/-- A non-empty stripped string stays non-empty after full-width
normalization and re-stripping. -/
theorem fwNorm_strip_ne (s : String) (hne : s ≠ "") (hst : pyStrip s = s) :
    pyStrip (fwNorm s) ≠ "" := by
  intro hc
  have hall := (pyStrip_ne_empty_iff (fwNorm s)).mp hc
  have hdata : s.data = stripChars s.data := (congrArg String.data hst).symm
  have hnil : stripChars s.data ≠ [] := by
    rw [← hdata]
    intro h0
    exact hne (String.ext (by simpa using h0))
  rcases stripChars_exists_nonspace s.data hnil with ⟨x, hx, hxs⟩
  rw [← hdata] at hx
  have : fwChar x ∈ (fwNorm s).data := by
    unfold fwNorm
    simpa using List.mem_map_of_mem fwChar hx
  have := hall (fwChar x) this
  rw [fwChar_nonspace x hxs] at this
  exact absurd this (by simp)

/-- The base component of `split_model_and_style` is present whenever the
input normalizes to a string at all (the source falls back to the whole
normalized string). -/
theorem split_base_isSome (v : PyVal) (s : String) (h : norm_model v = some s) :
    (split_model_and_style v).1.isSome = true := by
  unfold split_model_and_style
  rw [h]
  rcases hm : splitMatch (pyStrip (fwNorm s)).data with _ | ⟨a, inner⟩
  · simp [hm]
  · simp [hm]

/-- When a trailing parenthetical with a non-empty style is extracted, both
components are non-empty and the style is fully stripped. -/
theorem split_some_some (v : PyVal) (b s0 : String)
    (h : split_model_and_style v = (some b, some s0)) :
    b ≠ "" ∧ s0 ≠ "" ∧ pyStrip s0 = s0 := by
  unfold split_model_and_style at h
  rcases hn : norm_model v with _ | s
  · rw [hn] at h
    exact absurd (congrArg Prod.snd h) (by simp)
  · rw [hn] at h
    dsimp only at h
    rcases norm_text_some v s hn with ⟨hsne, hsst⟩
    have hsn : pyStrip (fwNorm s) ≠ "" := fwNorm_strip_ne s hsne hsst
    rcases hm : splitMatch (pyStrip (fwNorm s)).data with _ | ⟨a, inner⟩
    · rw [hm] at h
      exact absurd (congrArg Prod.snd h) (by simp)
    · rw [hm] at h
      simp only at h
      by_cases hi : pyStrip ⟨inner⟩ = ""
      · rw [if_pos hi] at h
        exact absurd (congrArg Prod.snd h) (by simp)
      · rw [if_neg hi] at h
        have h2 : s0 = pyStrip ⟨inner⟩ := (Option.some.inj (congrArg Prod.snd h)).symm
        refine ⟨?_, ?_, ?_⟩
        · by_cases ha : pyStrip ⟨a⟩ = ""
          · rw [if_pos ha] at h
            have h1 : b = pyStrip (fwNorm s) := (Option.some.inj (congrArg Prod.fst h)).symm
            rw [h1]
            exact hsn
          · rw [if_neg ha] at h
            have h1 : b = pyStrip ⟨a⟩ := (Option.some.inj (congrArg Prod.fst h)).symm
            rw [h1]
            exact ha
        · rw [h2]
          exact hi
        · rw [h2, pyStrip_idem]

/-! ## Helper lemmas: the accumulating dict -/

theorem sumLC_cons (k : Key) (c : Contrib) (t : List Contrib) :
    sumLC k (c :: t) = (if c.1 = k then c.2.1.getD 0 else 0) + sumLC k t := by
  unfold sumLC
  rw [List.filterMap_cons]
  by_cases hk : c.1 = k
  · rcases c.2.1 with _ | x <;> simp [hk]
  · simp [hk]

theorem sumRC_cons (k : Key) (c : Contrib) (t : List Contrib) :
    sumRC k (c :: t) = (if c.1 = k then c.2.2.getD 0 else 0) + sumRC k t := by
  unfold sumRC
  rw [List.filterMap_cons]
  by_cases hk : c.1 = k
  · rcases c.2.2 with _ | x <;> simp [hk]
  · simp [hk]

/-- What one contribution does to the dict at key `k`. -/
theorem applyContrib_at (m : Summed) (c : Contrib) (k : Key) :
    (applyContrib m c) k =
      if c.1 = k ∧ (c.2.1.isSome ∨ c.2.2.isSome)
      then some (((m k).getD (0, 0)).1 + c.2.1.getD 0, ((m k).getD (0, 0)).2 + c.2.2.getD 0)
      else m k := by
  unfold applyContrib touchAdd
  by_cases hk : c.1 = k
  · rcases hL : c.2.1 with _ | x <;> rcases hR : c.2.2 with _ | y <;>
      simp [hk, hL, hR]
  · rcases hL : c.2.1 with _ | x <;> rcases hR : c.2.2 with _ | y <;>
      simp [hk, hL, hR, Ne.symm hk]

/-- The dict after a run of additions: at each key, the entry exists iff some
contribution touched it, and then holds the starting value plus the
per-side sums. -/
theorem foldl_applyContrib_spec :
    ∀ (l : List Contrib) (m : Summed) (k : Key),
    (l.foldl applyContrib m) k =
      match m k with
      | some p => some (p.1 + sumLC k l, p.2 + sumRC k l)
      | Option.none =>
        if l.any (contribTouches k) then some (sumLC k l, sumRC k l) else Option.none
  | [], m, k => by
    rcases hm : m k with _ | p <;> simp [sumLC, sumRC, hm]
  | c :: t, m, k => by
    rw [List.foldl_cons]
    rw [foldl_applyContrib_spec t (applyContrib m c) k]
    rw [applyContrib_at m c k]
    rw [sumLC_cons, sumRC_cons]
    by_cases hk : c.1 = k
    · by_cases htc : c.2.1.isSome ∨ c.2.2.isSome
      · rw [if_pos ⟨hk, htc⟩]
        rcases hm : m k with _ | p
        · have : (c :: t).any (contribTouches k) = true := by
            simp [contribTouches, hk]
            tauto
          rw [this]
          simp [hk]
        · simp [hk]
          constructor <;> ring
      · rw [if_neg (by tauto)]
        have hL : c.2.1 = Option.none := by
          rcases hc : c.2.1 with _ | x
          · rfl
          · exact absurd (Or.inl (by simp [hc])) htc
        have hR : c.2.2 = Option.none := by
          rcases hc : c.2.2 with _ | y
          · rfl
          · exact absurd (Or.inr (by simp [hc])) htc
        rcases hm : m k with _ | p
        · have : (c :: t).any (contribTouches k) = t.any (contribTouches k) := by
            simp [contribTouches, hL, hR]
          rw [this]
          simp [hL, hR]
        · simp [hL, hR]
    · rw [if_neg (by tauto)]
      have hdk : decide (c.1 = k) = false := by simp [hk]
      rcases hm : m k with _ | p
      · simp only [List.any_cons, contribTouches, hdk, Bool.false_and, Bool.false_or]
        simp [hk]
      · simp [hk]

/-- The dict-threading row loop computes exactly the fold of the block's
contribution list over the starting dict. -/
theorem blockRowsM_eq_contribs (ws : ASheet) (de : Bool) (blk : Block) :
    ∀ (rows : List Nat) (st : AState) (l : List Contrib) (m : Summed),
    blockContribs ws de blk rows st = .ok l →
    blockRowsM ws de blk rows st m = .ok (l.foldl applyContrib m)
  | [], st, l, m => by
    intro h
    unfold blockContribs at h
    unfold blockRowsM
    cases h
    rfl
  | r :: rs, st, l, m => by
    intro h
    unfold blockContribs at h
    unfold blockRowsM
    rcases hs : scanRowA ws de blk r st with e | ⟨st', c⟩
    · rw [hs] at h
      exact absurd h (by simp)
    · rw [hs] at h
      dsimp only at h ⊢
      rcases hrest : blockContribs ws de blk rs st' with e | l'
      · rw [hrest] at h
        exact absurd h (by simp)
      · rw [hrest] at h
        simp only [Except.ok.injEq] at h
        subst h
        rcases c with _ | c0
        · exact blockRowsM_eq_contribs ws de blk rs st' l' m hrest
        · rw [blockRowsM_eq_contribs ws de blk rs st' l' (applyContrib m c0) hrest]
          rfl

/-- Block-list version of the previous lemma. -/
theorem blocksFoldM_eq_contribs (ws : ASheet) (de : Bool) :
    ∀ (bs : List Block) (l : List Contrib) (m : Summed),
    blocksContribs ws de bs = .ok l →
    blocksFoldM ws de bs m = .ok (l.foldl applyContrib m)
  | [], l, m => by
    intro h
    unfold blocksContribs at h
    unfold blocksFoldM
    cases h
    rfl
  | b :: bs, l, m => by
    intro h
    unfold blocksContribs at h
    unfold blocksFoldM
    rcases hb : blockContribs ws de b (aRows ws) ⟨.none, .none⟩ with e | lb
    · rw [hb] at h
      exact absurd h (by simp)
    · rw [hb] at h
      dsimp only at h
      rcases hrest : blocksContribs ws de bs with e | lbs
      · rw [hrest] at h
        exact absurd h (by simp)
      · rw [hrest] at h
        simp only [Except.ok.injEq] at h
        subst h
        rw [blockRowsM_eq_contribs ws de b (aRows ws) ⟨.none, .none⟩ lb m hb]
        dsimp only
        rw [blocksFoldM_eq_contribs ws de bs lbs (lb.foldl applyContrib m) hrest]
        rw [List.foldl_append]

/-- `build_inventory` through its contribution list: when extraction
succeeds, the inventory is the collapse of the per-key sums. -/
theorem build_from_contribs (ws : ASheet) (de : Bool) (l : List Contrib)
    (h : contribsA ws de = .ok l) :
    build_inventory ws de =
      .ok (fun k => ((l.foldl applyContrib emptySummed) k).map collapsePair) := by
  unfold build_inventory
  rw [blocksFoldM_eq_contribs ws de blocksA l emptySummed h]

/-! ## Helper lemmas: the reconciliation pass -/

theorem clearLR_get : ∀ (rows : List Nat) (sh : Sheet) (r c : Nat),
    (clearLR sh rows).get r c =
      if r ∈ rows ∧ (c = 6 ∨ c = 7) then PyVal.none else sh.get r c
  | [], sh, r, c => by
    simp [clearLR]
  | r0 :: rs, sh, r, c => by
    unfold clearLR
    rw [clearLR_get rs _ r c]
    by_cases hm : r ∈ rs ∧ (c = 6 ∨ c = 7)
    · rw [if_pos hm, if_pos ⟨List.mem_cons_of_mem r0 hm.1, hm.2⟩]
    · rw [if_neg hm]
      by_cases h0 : r = r0 ∧ (c = 6 ∨ c = 7)
      · rw [if_pos ⟨by rw [h0.1]; exact List.mem_cons_self r0 rs, h0.2⟩]
        rcases h0.2 with hc | hc
        · rw [Sheet.get_set_ne _ _ _ _ _ _ (Or.inr (by rw [hc]; decide))]
          rw [Sheet.get_set, if_pos ⟨h0.1, hc⟩]
        · rw [Sheet.get_set, if_pos ⟨h0.1, hc⟩]
      · rw [if_neg (by
          intro hand
          rcases List.mem_cons.mp hand.1 with he | he
          · exact h0 ⟨he, hand.2⟩
          · exact hm ⟨he, hand.2⟩)]
        have hne : ∀ cc : Nat, cc = 6 ∨ cc = 7 → ¬(r = r0 ∧ c = cc) := by
          intro cc hcc hand
          exact h0 ⟨hand.1, by rcases hcc with h | h <;> rw [← h, ← hand.2] <;> tauto⟩
        rw [Sheet.get_set_ne _ _ _ _ _ _ (by
          by_cases hr : r = r0
          · exact Or.inr (by
              intro hc7
              exact hne 7 (Or.inr rfl) ⟨hr, hc7⟩)
          · exact Or.inl hr)]
        rw [Sheet.get_set_ne _ _ _ _ _ _ (by
          by_cases hr : r = r0
          · exact Or.inr (by
              intro hc6
              exact hne 6 (Or.inl rfl) ⟨hr, hc6⟩)
          · exact Or.inl hr)]

/-- Everything a successful `rowStep` does: the state update and all cell
effects, phrased through `reconRow`. -/
theorem rowStep_ok (inv : InvMap) (fd : Bool) (r : Nat) (st : ScanState)
    (sh : Sheet) (st' : ScanState) (sh' : Sheet)
    (h : rowStep inv fd r st sh = .ok (st', sh')) :
    ∃ flex, parse_flex (sh.get r 5) = .ok flex ∧
      st' = (reconRow fd st (sh.get r 2) (sh.get r 3) (sh.get r 4) flex).st ∧
      (∀ r' c', r' ≠ r → sh'.get r' c' = sh.get r' c') ∧
      sh'.get r 2 = (reconRow fd st (sh.get r 2) (sh.get r 3) (sh.get r 4) flex).mCell ∧
      sh'.get r 3 = (reconRow fd st (sh.get r 2) (sh.get r 3) (sh.get r 4) flex).sCell ∧
      sh'.get r 4 = (reconRow fd st (sh.get r 2) (sh.get r 3) (sh.get r 4) flex).bCell ∧
      sh'.get r 5 = sh.get r 5 ∧
      sh'.get r 6 = (match (reconRow fd st (sh.get r 2) (sh.get r 3) (sh.get r 4) flex).key with
        | Option.none => sh.get r 6
        | some k => cellOfQty (invGet inv k).1) ∧
      sh'.get r 7 = (match (reconRow fd st (sh.get r 2) (sh.get r 3) (sh.get r 4) flex).key with
        | Option.none => sh.get r 7
        | some k => cellOfQty (invGet inv k).2) := by
  unfold rowStep at h
  rcases hp : parse_flex (sh.get r 5) with e | flex
  · rw [hp] at h
    exact absurd h (by simp)
  · rw [hp] at h
    dsimp only at h
    refine ⟨flex, rfl, ?_⟩
    rcases hk : (reconRow fd st (sh.get r 2) (sh.get r 3) (sh.get r 4) flex).key with _ | k
    · rw [hk] at h
      simp only [Except.ok.injEq, Prod.mk.injEq] at h
      rcases h with ⟨hst, hsh⟩
      subst hsh
      refine ⟨hst.symm, ?_, ?_, ?_, ?_, ?_, ?_, ?_⟩
      · intro r' c' hr
        simp [Sheet.get, Sheet.set, hr]
      · simp [Sheet.get, Sheet.set]
      · simp [Sheet.get, Sheet.set]
      · simp [Sheet.get, Sheet.set]
      · simp [Sheet.get, Sheet.set]
      · simp [Sheet.get, Sheet.set]
      · simp [Sheet.get, Sheet.set]
    · rw [hk] at h
      simp only [Except.ok.injEq, Prod.mk.injEq] at h
      rcases h with ⟨hst, hsh⟩
      subst hsh
      refine ⟨hst.symm, ?_, ?_, ?_, ?_, ?_, ?_, ?_⟩
      · intro r' c' hr
        simp [Sheet.get, Sheet.set, hr]
      · simp [Sheet.get, Sheet.set]
      · simp [Sheet.get, Sheet.set]
      · simp [Sheet.get, Sheet.set]
      · simp [Sheet.get, Sheet.set]
      · simp [Sheet.get, Sheet.set]
      · simp [Sheet.get, Sheet.set]

theorem outcomeStep_congr (fd : Bool) (sh1 sh2 : Sheet) (st : ScanState) (r : Nat)
    (h2 : sh1.get r 2 = sh2.get r 2) (h3 : sh1.get r 3 = sh2.get r 3)
    (h4 : sh1.get r 4 = sh2.get r 4) (h5 : sh1.get r 5 = sh2.get r 5) :
    outcomeStep fd sh1 st r = outcomeStep fd sh2 st r := by
  unfold outcomeStep
  rw [h2, h3, h4, h5]

/-- The scan state only reads columns 2–5 of the visited rows. -/
theorem scanStateAt_congr : ∀ (rows : List Nat) (sh1 sh2 : Sheet) (fd : Bool) (st : ScanState),
    (∀ r ∈ rows, sh1.get r 2 = sh2.get r 2 ∧ sh1.get r 3 = sh2.get r 3 ∧
      sh1.get r 4 = sh2.get r 4 ∧ sh1.get r 5 = sh2.get r 5) →
    scanStateAt sh1 fd rows st = scanStateAt sh2 fd rows st
  | [], sh1, sh2, fd, st => by
    intro h
    rfl
  | r :: rs, sh1, sh2, fd, st => by
    intro h
    unfold scanStateAt
    rcases h r (List.mem_cons_self r rs) with ⟨h2, h3, h4, h5⟩
    rw [outcomeStep_congr fd sh1 sh2 st r h2 h3 h4 h5]
    exact scanStateAt_congr rs sh1 sh2 fd _ (fun r' hr' => h r' (List.mem_cons_of_mem r hr'))

/-- The outcome of the `i`-th row of a scan that starts at row `a` in state
`st` over sheet `sh`. -/
def outcomeFrom (fd : Bool) (sh : Sheet) (st : ScanState) (a i : Nat) : RowOutcome :=
  outcomeStep fd sh (scanStateAt sh fd (List.range' a i) st) (a + i)

/-- Main characterization of the reconciliation loop over rows
`a, a+1, …, a+n-1`: rows outside the range are untouched, and each row in
the range gets the cell values its `RowOutcome` prescribes, with
Left/Right rewritten only on a complete key. -/
theorem foldRowsM_spec (inv : InvMap) (fd : Bool) :
    ∀ (n a : Nat) (st : ScanState) (sh out : Sheet),
    foldRowsM inv fd (List.range' a n) st sh = .ok out →
    (∀ r c, r < a ∨ a + n ≤ r → out.get r c = sh.get r c) ∧
    (∀ i, i < n →
      out.get (a + i) 2 = (outcomeFrom fd sh st a i).mCell ∧
      out.get (a + i) 3 = (outcomeFrom fd sh st a i).sCell ∧
      out.get (a + i) 4 = (outcomeFrom fd sh st a i).bCell ∧
      out.get (a + i) 6 = (match (outcomeFrom fd sh st a i).key with
        | Option.none => sh.get (a + i) 6
        | some k => cellOfQty (invGet inv k).1) ∧
      out.get (a + i) 7 = (match (outcomeFrom fd sh st a i).key with
        | Option.none => sh.get (a + i) 7
        | some k => cellOfQty (invGet inv k).2))
  | 0, a, st, sh, out => by
    intro h
    unfold foldRowsM at h
    simp only [List.range'] at h
    cases h
    exact ⟨fun r c _ => rfl, fun i hi => absurd hi (by omega)⟩
  | n + 1, a, st, sh, out => by
    intro h
    rw [List.range'_succ] at h
    unfold foldRowsM at h
    rcases hrs : rowStep inv fd a st sh with e | ⟨st1, sh1⟩
    · rw [hrs] at h
      exact absurd h (by simp)
    · rw [hrs] at h
      dsimp only at h
      have IH := foldRowsM_spec inv fd n (a + 1) st1 sh1 out h
      rcases rowStep_ok inv fd a st sh st1 sh1 hrs with
        ⟨flex, hp, hst1, hpres, hm2, hm3, hm4, hm5, hm6, hm7⟩
      have hflex : flexOf (sh.get a 5) = flex := by
        unfold flexOf
        rw [hp]
      have hout0 : outcomeFrom fd sh st a 0 =
          reconRow fd st (sh.get a 2) (sh.get a 3) (sh.get a 4) flex := by
        unfold outcomeFrom
        show outcomeStep fd sh (scanStateAt sh fd [] st) (a + 0) = _
        unfold scanStateAt outcomeStep
        rw [Nat.add_zero, hflex]
      have hagree : ∀ r', r' ≠ a → ∀ c', sh1.get r' c' = sh.get r' c' := by
        intro r' hr' c'
        exact hpres r' c' hr'
      constructor
      · intro r c hcond
        have hra : r ≠ a := by omega
        have := IH.1 r c (by omega)
        rw [this, hagree r hra c]
      · intro i hi
        rcases Nat.eq_zero_or_pos i with hz | hpos
        · subst hz
          have hnotin : a < a + 1 := by omega
          have h0 := IH.1 a
          rw [Nat.add_zero, hout0]
          refine ⟨?_, ?_, ?_, ?_, ?_⟩
          · rw [h0 2 (by omega), hm2]
          · rw [h0 3 (by omega), hm3]
          · rw [h0 4 (by omega), hm4]
          · rw [h0 6 (by omega), hm6]
          · rw [h0 7 (by omega), hm7]
        · obtain ⟨j, rfl⟩ : ∃ j, i = j + 1 := ⟨i - 1, by omega⟩
          have hj : j < n := by omega
          have IH2 := IH.2 j hj
          have hadd : a + (j + 1) = (a + 1) + j := by omega
          have hshift : outcomeFrom fd sh st a (j + 1) = outcomeFrom fd sh1 st1 (a + 1) j := by
            unfold outcomeFrom
            rw [List.range'_succ]
            show outcomeStep fd sh
              (scanStateAt sh fd (List.range' (a + 1) j) (outcomeStep fd sh st a).st)
              (a + (j + 1)) = _
            have hst1' : (outcomeStep fd sh st a).st = st1 := by
              unfold outcomeStep
              rw [hflex, ← hst1]
            rw [hst1', hadd]
            rw [scanStateAt_congr (List.range' (a + 1) j) sh sh1 fd st1 (by
              intro r' hr'
              have : r' ≠ a := by
                have := List.mem_range'_1.mp hr'
                omega
              exact ⟨(hagree r' this 2).symm, (hagree r' this 3).symm,
                (hagree r' this 4).symm, (hagree r' this 5).symm⟩)]
            exact outcomeStep_congr fd sh sh1 _ (a + 1 + j)
              (hagree (a + 1 + j) (by omega) 2).symm
              (hagree (a + 1 + j) (by omega) 3).symm
              (hagree (a + 1 + j) (by omega) 4).symm
              (hagree (a + 1 + j) (by omega) 5).symm
          rw [hadd, hshift]
          refine ⟨IH2.1, IH2.2.1, IH2.2.2.1, ?_, ?_⟩
          · rw [IH2.2.2.2.1]
            rcases (outcomeFrom fd sh1 st1 (a + 1) j).key with _ | k
            · exact hagree (a + 1 + j) (by omega) 6
            · rfl
          · rw [IH2.2.2.2.2]
            rcases (outcomeFrom fd sh1 st1 (a + 1) j).key with _ | k
            · exact hagree (a + 1 + j) (by omega) 7
            · rfl

/-- Master characterization of `apply_to_b` on a successful run: each data
row's output cells are exactly what its `RowOutcome` prescribes, and
Left/Right hold the inventory lookup for the row's key — or stay at the
cleared blank when the key is incomplete. -/
theorem apply_to_b_row_spec (sh : Sheet) (inv : InvMap) (fd : Bool) (out : Sheet) (r : Nat)
    (hok : apply_to_b sh inv fd = .ok out)
    (h2 : 2 ≤ r) (h3 : r ≤ lastRowOf (ensure_style_column sh)) :
    out.get r 2 = (rowOutcomeAt (ensure_style_column sh) fd r).mCell ∧
    out.get r 3 = (rowOutcomeAt (ensure_style_column sh) fd r).sCell ∧
    out.get r 4 = (rowOutcomeAt (ensure_style_column sh) fd r).bCell ∧
    out.get r 6 = (match (rowOutcomeAt (ensure_style_column sh) fd r).key with
      | Option.none => PyVal.none
      | some k => cellOfQty (invGet inv k).1) ∧
    out.get r 7 = (match (rowOutcomeAt (ensure_style_column sh) fd r).key with
      | Option.none => PyVal.none
      | some k => cellOfQty (invGet inv k).2) := by
  unfold apply_to_b at hok
  have hlr2 : 2 ≤ lastRowOf (ensure_style_column sh) := le_trans h2 h3
  obtain ⟨i, rfl⟩ : ∃ i, r = 2 + i := ⟨r - 2, by omega⟩
  have hi : i < lastRowOf (ensure_style_column sh) - 1 := by omega
  have spec := (foldRowsM_spec inv fd (lastRowOf (ensure_style_column sh) - 1) 2
    ⟨Option.none, Option.none, Option.none⟩
    (clearLR (ensure_style_column sh) (dataRows (lastRowOf (ensure_style_column sh))))
    out hok).2 i hi
  have hclear : ∀ r' c', (c' = 2 ∨ c' = 3 ∨ c' = 4 ∨ c' = 5) →
      (clearLR (ensure_style_column sh) (dataRows (lastRowOf (ensure_style_column sh)))).get r' c' =
      (ensure_style_column sh).get r' c' := by
    intro r' c' hc
    rw [clearLR_get]
    rw [if_neg (by
      intro hand
      rcases hand.2 with h6 | h7 <;> omega)]
  have hmem : 2 + i ∈ dataRows (lastRowOf (ensure_style_column sh)) := by
    unfold dataRows
    rw [List.mem_range'_1]
    omega
  have hc6 : (clearLR (ensure_style_column sh)
      (dataRows (lastRowOf (ensure_style_column sh)))).get (2 + i) 6 = PyVal.none := by
    rw [clearLR_get, if_pos ⟨hmem, Or.inl rfl⟩]
  have hc7 : (clearLR (ensure_style_column sh)
      (dataRows (lastRowOf (ensure_style_column sh)))).get (2 + i) 7 = PyVal.none := by
    rw [clearLR_get, if_pos ⟨hmem, Or.inr rfl⟩]
  have hsame : outcomeFrom fd
      (clearLR (ensure_style_column sh) (dataRows (lastRowOf (ensure_style_column sh))))
      ⟨Option.none, Option.none, Option.none⟩ 2 i =
      rowOutcomeAt (ensure_style_column sh) fd (2 + i) := by
    unfold outcomeFrom rowOutcomeAt
    have hsub : 2 + i - 2 = i := by omega
    rw [hsub]
    rw [scanStateAt_congr (List.range' 2 i) _ (ensure_style_column sh) fd _ (by
      intro r' hr'
      exact ⟨hclear r' 2 (by tauto), hclear r' 3 (by tauto),
        hclear r' 4 (by tauto), hclear r' 5 (by tauto)⟩)]
    exact outcomeStep_congr fd _ (ensure_style_column sh) _ (2 + i)
      (hclear (2 + i) 2 (by tauto)) (hclear (2 + i) 3 (by tauto))
      (hclear (2 + i) 4 (by tauto)) (hclear (2 + i) 5 (by tauto))
  rw [hsame, hc6, hc7] at spec
  exact spec

/-! ## Claim theorems -/

/-- C7: `splitModelAndStyle` normalizes full-width parentheses, extracts a
trailing `(...)` group when present (with the style absent when the
parenthetical content trims to empty, and the base falling back to the
whole normalized string when the preceding text trims to empty, so the
base is never absent for a non-absent input), returns the whole
normalized string with absent style when no trailing group matches, and
in particular maps "FT8 Pro (RED)" to ("FT8 Pro", "RED"),
"FT6（red,black.blue,green）" to ("FT6", "red,black.blue,green") and
"Plain Model" to ("Plain Model", absent). -/
theorem split_model_and_style_spec :
    split_model_and_style (.str "FT8 Pro (RED)") = (some "FT8 Pro", some "RED") ∧
    split_model_and_style (.str "FT6（red,black.blue,green）") =
      (some "FT6", some "red,black.blue,green") ∧
    split_model_and_style (.str "Plain Model") = (some "Plain Model", Option.none) ∧
    (∀ (v : PyVal) (s : String), norm_model v = some s →
      (split_model_and_style v).1.isSome = true) ∧
    (∀ (v : PyVal) (s : String), norm_model v = some s →
      splitMatch (pyStrip (fwNorm s)).data = Option.none →
      split_model_and_style v = (some (pyStrip (fwNorm s)), Option.none)) ∧
    (∀ (v : PyVal) (s : String) (a inner : List Char), norm_model v = some s →
      splitMatch (pyStrip (fwNorm s)).data = some (a, inner) →
      split_model_and_style v =
        (some (if pyStrip ⟨a⟩ = "" then pyStrip (fwNorm s) else pyStrip ⟨a⟩),
         if pyStrip ⟨inner⟩ = "" then Option.none else some (pyStrip ⟨inner⟩))) := by
  refine ⟨by decide, by decide, by decide, split_base_isSome, ?_, ?_⟩
  · intro v s h hm
    unfold split_model_and_style
    rw [h]
    dsimp only
    rw [hm]
  · intro v s a inner h hm
    unfold split_model_and_style
    rw [h]
    dsimp only
    rw [hm]

theorem split_model_and_style_spec_witness :
    norm_model (.str " FT9  ") = some "FT9" ∧
    (split_model_and_style (.str " FT9  ")).1.isSome = true :=
  ⟨by decide, split_model_and_style_spec.2.2.2.1 (.str " FT9  ") "FT9" (by decide)⟩

theorem digitRunAt_eq_none : ∀ (l : List Char),
    digitRunAt l = Option.none ↔ ∀ c ∈ l, isPyDigit c = false
  | [] => by simp [digitRunAt]
  | c :: cs => by
    unfold digitRunAt
    by_cases hc : isPyDigit c = true
    · rw [if_pos hc]
      simp [hc]
    · rw [if_neg hc]
      rw [digitRunAt_eq_none cs]
      simp only [Bool.not_eq_true] at hc
      simp [hc]

/-- C5: under defect exclusion a quantity string whose trimmed form contains
any non-ASCII character is excluded (absent); with exclusion off, or for a
pure-ASCII trimmed string, the first contiguous digit run is extracted,
with absent on an empty-after-trim string or on a string with no digits.
Concretely, "5个" is excluded when exclusion is on and parses to 5 when it
is off. -/
theorem parse_qty_defect_exclusion :
    (∀ (s : String), has_non_ascii (pyStrip s) = true →
      parse_qty (.str s) true = .ok Option.none) ∧
    (∀ (s : String) (de : Bool), has_non_ascii (pyStrip s) = false ∨ de = false →
      parse_qty (.str s) de = .ok (firstDigitInt (pyStrip s))) ∧
    (∀ (s : String) (de : Bool), pyStrip s = "" →
      parse_qty (.str s) de = .ok Option.none) ∧
    (∀ (s : String), firstDigitInt s = Option.none ↔ ∀ c ∈ s.data, isPyDigit c = false) ∧
    parse_qty (.str "5 damaged") true = .ok (some 5) ∧
    parse_qty (.str "5个") true = .ok Option.none ∧
    parse_qty (.str "5个") false = .ok (some 5) := by
  refine ⟨?_, ?_, ?_, ?_, by decide, by decide, by decide⟩
  · intro s hna
    unfold parse_qty
    dsimp only
    have hne : ¬ pyStrip s = "" := by
      intro he
      rw [he] at hna
      exact absurd hna (by decide)
    rw [if_neg hne, if_pos (by rw [hna]; rfl)]
  · intro s de hcond
    unfold parse_qty
    dsimp only
    by_cases he : pyStrip s = ""
    · rw [if_pos he, he]
      decide
    · rw [if_neg he, if_neg (by
        rcases hcond with hc | hc
        · rw [hc]
          simp
        · rw [hc]
          simp)]
  · intro s de he
    unfold parse_qty
    dsimp only
    rw [if_pos he]
  · intro s
    unfold firstDigitInt
    rw [Option.map_eq_none']
    exact digitRunAt_eq_none s.data

theorem parse_qty_defect_exclusion_witness :
    has_non_ascii (pyStrip "5个") = true ∧ parse_qty (.str "5个") true = .ok Option.none :=
  ⟨by decide, parse_qty_defect_exclusion.1 "5个" (by decide)⟩

/-- C2 (code bug): the spec's contract says no Value Normalizer ever raises,
but `parse_qty` and `parse_flex` raise on non-finite floats — the `int(v)`
fallback and `round(v)` cannot convert NaN/infinity.  Every other input
shape degrades to absent or a value, as the contract describes. -/
theorem normalizers_raise_on_nonfinite_float :
    parse_qty (.float .nan) true = .error .valueError ∧
    parse_qty (.float .inf) true = .error .overflowError ∧
    parse_qty (.float .ninf) true = .error .overflowError ∧
    parse_flex (.float .nan) = .error .valueError ∧
    parse_flex (.float .inf) = .error .overflowError ∧
    (∀ (de : Bool), parse_qty .none de = .ok Option.none) ∧
    (∀ (n : ℤ) (de : Bool), parse_qty (.int n) de = .ok (some n)) ∧
    (∀ (q : ℚ) (de : Bool), ∃ o, parse_qty (.float (.finite q)) de = .ok o) ∧
    (∀ (s : String) (de : Bool), ∃ o, parse_qty (.str s) de = .ok o) ∧
    (∀ (s : String) (de : Bool), ∃ o, parse_qty (.other s) de = .ok o) ∧
    (∀ (s : String), ∃ o, parse_flex (.str s) = .ok o) := by
  refine ⟨rfl, rfl, rfl, rfl, rfl, fun de => rfl, fun n de => rfl, ?_, ?_,
    fun s de => ⟨Option.none, rfl⟩, fun s => ⟨firstDigitInt s, rfl⟩⟩
  · intro q de
    unfold parse_qty
    dsimp only
    by_cases h : |q - (pyRound q : ℚ)| < 1/1000000000
    · exact ⟨some (pyRound q), by rw [if_pos h]⟩
    · exact ⟨some (pyTrunc q), by rw [if_neg h]⟩
  · intro s de
    unfold parse_qty
    dsimp only
    by_cases he : pyStrip s = ""
    · exact ⟨Option.none, by rw [if_pos he]⟩
    · rw [if_neg he]
      by_cases hx : (de && has_non_ascii (pyStrip s)) = true
      · exact ⟨Option.none, by rw [if_pos hx]⟩
      · exact ⟨firstDigitInt (pyStrip s), by rw [if_neg hx]⟩

theorem ensure_noop (sh : Sheet)
    (h : (containsSub (headerC sh) "style" || containsSub (headerC sh) "color") = true) :
    ensure_style_column sh = sh := by
  unfold ensure_style_column
  rw [if_pos h]

theorem ensure_inserted_header (sh : Sheet)
    (h : (containsSub (headerC sh) "style" || containsSub (headerC sh) "color") = false) :
    (ensure_style_column sh).get 1 3 = .str "Style/Color" := by
  unfold ensure_style_column
  rw [h]
  dsimp only
  rw [if_neg (by simp)]
  rw [Sheet.get_set, if_pos ⟨rfl, rfl⟩]

/-- C8: `ensure_style_column` is idempotent — if the column-C header already
mentions style/color (case-insensitively) the sheet is left unchanged, so
a second run after a first-run insertion is a no-op. -/
theorem ensure_style_column_idempotent (sh : Sheet) :
    ((containsSub (headerC sh) "style" || containsSub (headerC sh) "color") = true →
      ensure_style_column sh = sh) ∧
    ensure_style_column (ensure_style_column sh) = ensure_style_column sh := by
  refine ⟨ensure_noop sh, ?_⟩
  cases hb : (containsSub (headerC sh) "style" || containsSub (headerC sh) "color") with
  | true =>
    rw [ensure_noop sh hb]
    exact ensure_noop sh hb
  | false =>
    have hh : headerC (ensure_style_column sh) = "style/color" := by
      unfold headerC
      rw [ensure_inserted_header sh hb]
      decide
    exact ensure_noop (ensure_style_column sh) (by rw [hh]; decide)

def sampleHeaderSheet : Sheet :=
  ⟨fun r c => if r = 1 ∧ c = 3 then .str "Style/Color" else .none, 1⟩

theorem ensure_style_column_idempotent_witness :
    (containsSub (headerC sampleHeaderSheet) "style" ||
      containsSub (headerC sampleHeaderSheet) "color") = true ∧
    ensure_style_column sampleHeaderSheet = sampleHeaderSheet :=
  ⟨by decide, (ensure_style_column_idempotent sampleHeaderSheet).1 (by decide)⟩

/-- C4: zero-collapse.  For any A sheet whose extraction succeeds: a key some
contribution touched appears in the inventory with each side equal to its
contribution sum when that sum is positive and blank otherwise (in
particular blank on an exact zero); an untouched key is absent entirely;
and a side to which no contribution supplied a quantity has sum zero (so
it comes out blank). -/
theorem zero_collapse (ws : ASheet) (de : Bool) (k : Key) (l : List Contrib)
    (hl : contribsA ws de = .ok l) :
    (l.any (contribTouches k) = true →
      invAt ws de k = .ok (some
        (if 0 < sumLC k l then some (sumLC k l) else Option.none,
         if 0 < sumRC k l then some (sumRC k l) else Option.none))) ∧
    (l.any (contribTouches k) = false → invAt ws de k = .ok Option.none) ∧
    ((∀ c ∈ l, c.1 = k → c.2.1 = Option.none) → sumLC k l = 0) ∧
    ((∀ c ∈ l, c.1 = k → c.2.2 = Option.none) → sumRC k l = 0) := by
  have hb := build_from_contribs ws de l hl
  have hspec := foldl_applyContrib_spec l emptySummed k
  refine ⟨?_, ?_, ?_, ?_⟩
  · intro ha
    unfold invAt
    rw [hb]
    rw [show emptySummed k = Option.none from rfl, ha] at hspec
    dsimp only
    rw [hspec]
    rfl
  · intro ha
    unfold invAt
    rw [hb]
    rw [show emptySummed k = Option.none from rfl, ha] at hspec
    dsimp only
    rw [hspec]
    rfl
  · intro hnone
    unfold sumLC
    rw [List.filterMap_eq_nil_iff.mpr (by
      intro c hc
      by_cases hk : c.1 = k
      · rw [if_pos hk]
        exact hnone c hc hk
      · rw [if_neg hk])]
    rfl
  · intro hnone
    unfold sumRC
    rw [List.filterMap_eq_nil_iff.mpr (by
      intro c hc
      by_cases hk : c.1 = k
      · rw [if_pos hk]
        exact hnone c hc hk
      · rw [if_neg hk])]
    rfl

/-- A sheet whose single key receives left quantities 3 and −3 (summing to
exactly 0) and one right quantity 2. -/
def zcSheet : ASheet :=
  ⟨fun r c =>
    if r = 5 && c = 2 then .str "X"
    else if r = 5 && c = 3 then .str "B"
    else if r = 5 && c = 4 then .int 1
    else if r = 5 && c = 5 then .int 3
    else if r = 5 && c = 6 then .int 2
    else if r = 6 && c = 2 then .str "X"
    else if r = 6 && c = 3 then .str "B"
    else if r = 6 && c = 4 then .int 1
    else if r = 6 && c = 5 then .int (-3)
    else .none,
   6, []⟩

def zcList : List Contrib :=
  [(("X", Option.none, "B", 1), some 3, some 2),
   (("X", Option.none, "B", 1), some (-3), Option.none)]

theorem zero_collapse_witness :
    contribsA zcSheet true = .ok zcList ∧
    zcList.any (contribTouches ("X", Option.none, "B", 1)) = true ∧
    sumLC ("X", Option.none, "B", 1) zcList = 0 ∧
    invAt zcSheet true ("X", Option.none, "B", 1) = .ok (some (Option.none, some 2)) := by
  refine ⟨by decide, by decide, by decide, ?_⟩
  have h := (zero_collapse zcSheet true ("X", Option.none, "B", 1) zcList (by decide)).1
    (by decide)
  rw [h]
  decide

/-- C9 (implicit invariant): every per-side value the inventory carries is
blank or a strictly positive integer; a side whose contribution sum is
zero or negative is collapsed to blank, so no output ever shows a zero or
negative quantity. -/
theorem inventory_sides_blank_or_positive (ws : ASheet) (de : Bool) (k : Key)
    (p : Option ℤ × Option ℤ) (h : invAt ws de k = .ok (some p)) :
    (p.1 = Option.none ∨ ∃ n : ℤ, 0 < n ∧ p.1 = some n) ∧
    (p.2 = Option.none ∨ ∃ n : ℤ, 0 < n ∧ p.2 = some n) ∧
    (∀ l, contribsA ws de = .ok l → sumLC k l ≤ 0 → p.1 = Option.none) ∧
    (∀ l, contribsA ws de = .ok l → sumRC k l ≤ 0 → p.2 = Option.none) := by
  unfold invAt build_inventory at h
  rcases hbf : blocksFoldM ws de blocksA emptySummed with e | m
  · rw [hbf] at h
    exact absurd h (by simp)
  · rw [hbf] at h
    dsimp only at h
    simp only [Except.ok.injEq] at h
    rcases hq : m k with _ | q
    · rw [hq] at h
      exact absurd h (by simp)
    · rw [hq] at h
      simp only [Option.map_some', Option.some.injEq] at h
      have hp : p = collapsePair q := h.symm
      have hsum : ∀ l, contribsA ws de = .ok l → q = (sumLC k l, sumRC k l) := by
        intro l hl
        have := blocksFoldM_eq_contribs ws de blocksA l emptySummed hl
        rw [hbf] at this
        simp only [Except.ok.injEq] at this
        have hmk := foldl_applyContrib_spec l emptySummed k
        rw [← this, hq] at hmk
        simp only [emptySummed] at hmk
        by_cases ha : l.any (contribTouches k) = true
        · rw [if_pos ha] at hmk
          exact Option.some.inj hmk
        · rw [if_neg ha] at hmk
          exact absurd hmk (by simp)
      refine ⟨?_, ?_, ?_, ?_⟩
      · rw [hp]
        unfold collapsePair
        by_cases h1 : 0 < q.1
        · exact Or.inr ⟨q.1, h1, by rw [if_pos h1]⟩
        · exact Or.inl (by rw [if_neg h1])
      · rw [hp]
        unfold collapsePair
        by_cases h2 : 0 < q.2
        · exact Or.inr ⟨q.2, h2, by rw [if_pos h2]⟩
        · exact Or.inl (by rw [if_neg h2])
      · intro l hl hle
        rw [hp, hsum l hl]
        unfold collapsePair
        dsimp only
        rw [if_neg (by omega)]
      · intro l hl hle
        rw [hp, hsum l hl]
        unfold collapsePair
        dsimp only
        rw [if_neg (by omega)]

/-- A sheet contributing a negative left quantity (−2) and a right quantity
3 to a single key. -/
def negSheet : ASheet :=
  ⟨fun r c =>
    if r = 5 && c = 2 then .str "X"
    else if r = 5 && c = 3 then .str "B"
    else if r = 5 && c = 4 then .int 1
    else if r = 5 && c = 5 then .int (-2)
    else if r = 5 && c = 6 then .int 3
    else .none,
   5, []⟩

theorem inventory_sides_blank_or_positive_witness :
    invAt negSheet true ("X", Option.none, "B", 1) = .ok (some (Option.none, some 3)) ∧
    ((Option.none : Option ℤ) = Option.none ∨
      ∃ n : ℤ, 0 < n ∧ (Option.none : Option ℤ) = some n) ∧
    ((some 3 : Option ℤ) = Option.none ∨ ∃ n : ℤ, 0 < n ∧ (some 3 : Option ℤ) = some n) :=
  ⟨by decide,
   (inventory_sides_blank_or_positive negSheet true ("X", Option.none, "B", 1)
     (Option.none, some 3) (by decide)).1,
   (inventory_sides_blank_or_positive negSheet true ("X", Option.none, "B", 1)
     (Option.none, some 3) (by decide)).2.1⟩

/-- An A sheet whose row 5 carries the key (model "X", blade "B", flex 1,
Left 1) and whose row 6 relies on fill-down for model and contributes
Left 2. -/
def permSheetA : ASheet :=
  ⟨fun r c =>
    if r = 5 && c = 2 then .str "X"
    else if r = 5 && c = 3 then .str "B"
    else if r = 5 && c = 4 then .int 1
    else if r = 5 && c = 5 then .int 1
    else if r = 6 && c = 3 then .str "B"
    else if r = 6 && c = 4 then .int 1
    else if r = 6 && c = 5 then .int 2
    else .none,
   6, []⟩

/-- `permSheetA` with its two data rows swapped. -/
def permSheetB : ASheet :=
  ⟨fun r c =>
    if r = 6 && c = 2 then .str "X"
    else if r = 6 && c = 3 then .str "B"
    else if r = 6 && c = 4 then .int 1
    else if r = 6 && c = 5 then .int 1
    else if r = 5 && c = 3 then .str "B"
    else if r = 5 && c = 4 then .int 1
    else if r = 5 && c = 5 then .int 2
    else .none,
   6, []⟩

/-- C3 (counterexample): permuting the rows of A before running the
aggregator does NOT always give identical key→total results.
`permSheetB` is `permSheetA` with data rows 5 and 6 swapped (cell by cell
over the scanned block columns 2–6, as the first ten conjuncts verify),
yet the totals differ: fill-down makes row 6's blank model inherit "X" in
`permSheetA` (total 1 + 2 = 3) while in `permSheetB` the blank-model row
comes first and is skipped (total 1). -/
theorem aggregation_row_permutation_counterexample :
    permSheetB.cells 5 2 = permSheetA.cells 6 2 ∧
    permSheetB.cells 5 3 = permSheetA.cells 6 3 ∧
    permSheetB.cells 5 4 = permSheetA.cells 6 4 ∧
    permSheetB.cells 5 5 = permSheetA.cells 6 5 ∧
    permSheetB.cells 5 6 = permSheetA.cells 6 6 ∧
    permSheetB.cells 6 2 = permSheetA.cells 5 2 ∧
    permSheetB.cells 6 3 = permSheetA.cells 5 3 ∧
    permSheetB.cells 6 4 = permSheetA.cells 5 4 ∧
    permSheetB.cells 6 5 = permSheetA.cells 5 5 ∧
    permSheetB.cells 6 6 = permSheetA.cells 5 6 ∧
    invAt permSheetA true ("X", Option.none, "B", 1) = .ok (some (some 3, Option.none)) ∧
    invAt permSheetB true ("X", Option.none, "B", 1) = .ok (some (some 1, Option.none)) ∧
    invAt permSheetA true ("X", Option.none, "B", 1) ≠
      invAt permSheetB true ("X", Option.none, "B", 1) := by
  decide

theorem perm_any_eq {α : Type} (p : α → Bool) (l1 l2 : List α) (h : l1.Perm l2) :
    l1.any p = l2.any p := by
  cases h1 : l1.any p with
  | true =>
    rcases List.any_eq_true.mp h1 with ⟨x, hx, hpx⟩
    exact (List.any_eq_true.mpr ⟨x, h.mem_iff.mp hx, hpx⟩).symm
  | false =>
    cases h2 : l2.any p with
    | false => rfl
    | true =>
      rcases List.any_eq_true.mp h2 with ⟨x, hx, hpx⟩
      rw [← h1]
      exact List.any_eq_true.mpr ⟨x, h.mem_iff.mpr hx, hpx⟩

/-- C3 (amended): what is order-independent is the accumulation of the
extracted contributions — any permutation of the contribution list folds
to the same per-key dict (the per-side per-key sum is associative and
commutative).  Row order itself still matters through fill-down
resolution, as the counterexample shows; the inventory equals the
collapse of this permutation-invariant fold. -/
theorem contribution_sum_order_independence :
    (∀ (l1 l2 : List Contrib), l1.Perm l2 → ∀ k : Key,
      l1.foldl applyContrib emptySummed k = l2.foldl applyContrib emptySummed k) ∧
    (∀ (ws : ASheet) (de : Bool) (l : List Contrib) (k : Key), contribsA ws de = .ok l →
      invAt ws de k = .ok ((l.foldl applyContrib emptySummed k).map collapsePair)) := by
  constructor
  · intro l1 l2 h k
    rw [foldl_applyContrib_spec l1 emptySummed k, foldl_applyContrib_spec l2 emptySummed k]
    have hany : l1.any (contribTouches k) = l2.any (contribTouches k) :=
      perm_any_eq (contribTouches k) l1 l2 h
    have hL : sumLC k l1 = sumLC k l2 := by
      unfold sumLC
      exact (h.filterMap (fun c : Contrib => if c.1 = k then c.2.1 else Option.none)).sum_eq
    have hR : sumRC k l1 = sumRC k l2 := by
      unfold sumRC
      exact (h.filterMap (fun c : Contrib => if c.1 = k then c.2.2 else Option.none)).sum_eq
    rw [show sumLC k l1 = sumLC k l2 from hL, show sumRC k l1 = sumRC k l2 from hR, hany]
  · intro ws de l k hl
    unfold invAt
    rw [build_from_contribs ws de l hl]

def permContribA : Contrib := (("X", Option.none, "B", 1), some 1, Option.none)

def permContribB : Contrib := (("Y", Option.none, "B", 2), some 2, some 3)

theorem contribution_sum_order_independence_witness :
    List.Perm [permContribA, permContribB] [permContribB, permContribA] ∧
    [permContribA, permContribB].foldl applyContrib emptySummed ("X", Option.none, "B", 1) =
      [permContribB, permContribA].foldl applyContrib emptySummed ("X", Option.none, "B", 1) :=
  ⟨List.Perm.swap permContribB permContribA [],
   contribution_sum_order_independence.1 [permContribA, permContribB]
     [permContribB, permContribA] (List.Perm.swap permContribB permContribA [])
     ("X", Option.none, "B", 1)⟩

/-- C1: clear-then-fill invariant.  On a successful run of the template
reconciler, every data row (first data row through last populated row) has
its Left/Right cells blanked by the clear pass before the fill loop runs
(third conjunct — `apply_to_b` folds over the `clearLR` result by
definition), and any row whose computed key is absent from the inventory
map — or whose model, blade, or flex is absent — ends the run with truly
blank Left/Right cells, whatever the original template held there. -/
theorem clear_then_fill (sh : Sheet) (inv : InvMap) (fd : Bool) (out : Sheet) (r : Nat)
    (hok : apply_to_b sh inv fd = .ok out)
    (h2 : 2 ≤ r) (h3 : r ≤ lastRowOf (ensure_style_column sh))
    (hmiss : (rowOutcomeAt (ensure_style_column sh) fd r).key = Option.none ∨
      ∀ k, (rowOutcomeAt (ensure_style_column sh) fd r).key = some k → inv k = Option.none) :
    out.get r 6 = PyVal.none ∧ out.get r 7 = PyVal.none ∧
    (∀ r', r' ∈ dataRows (lastRowOf (ensure_style_column sh)) →
      (clearLR (ensure_style_column sh)
        (dataRows (lastRowOf (ensure_style_column sh)))).get r' 6 = PyVal.none ∧
      (clearLR (ensure_style_column sh)
        (dataRows (lastRowOf (ensure_style_column sh)))).get r' 7 = PyVal.none) := by
  have spec := apply_to_b_row_spec sh inv fd out r hok h2 h3
  refine ⟨?_, ?_, ?_⟩
  · rw [spec.2.2.2.1]
    rcases hk : (rowOutcomeAt (ensure_style_column sh) fd r).key with _ | k
    · rfl
    · rcases hmiss with hm | hm
      · rw [hk] at hm
        exact absurd hm (by simp)
      · have : inv k = Option.none := hm k hk
        dsimp only [invGet]
        rw [this]
        rfl
  · rw [spec.2.2.2.2]
    rcases hk : (rowOutcomeAt (ensure_style_column sh) fd r).key with _ | k
    · rfl
    · rcases hmiss with hm | hm
      · rw [hk] at hm
        exact absurd hm (by simp)
      · have : inv k = Option.none := hm k hk
        dsimp only [invGet]
        rw [this]
        rfl
  · intro r' hr'
    constructor
    · rw [clearLR_get, if_pos ⟨hr', Or.inl rfl⟩]
    · rw [clearLR_get, if_pos ⟨hr', Or.inr rfl⟩]

/-- An inventory with no keys at all. -/
def invEmpty : InvMap := fun _ => Option.none

/-- A template whose row 2 has a complete key and stale Left/Right values 99
and 7 that must not survive reconciliation against an empty inventory. -/
def staleSheet : Sheet :=
  ⟨fun r c =>
    if r = 1 && c = 2 then .str "Model"
    else if r = 1 && c = 3 then .str "Style/Color"
    else if r = 2 && c = 2 then .str "X"
    else if r = 2 && c = 4 then .str "B"
    else if r = 2 && c = 5 then .int 1
    else if r = 2 && c = 6 then .int 99
    else if r = 2 && c = 7 then .int 7
    else .none,
   3⟩

def staleSheetOut : Sheet :=
  match apply_to_b staleSheet invEmpty true with
  | .ok o => o
  | .error _ => staleSheet

theorem clear_then_fill_witness :
    apply_to_b staleSheet invEmpty true = .ok staleSheetOut ∧
    staleSheet.get 2 6 = .int 99 ∧
    staleSheetOut.get 2 6 = PyVal.none ∧ staleSheetOut.get 2 7 = PyVal.none := by
  refine ⟨rfl, rfl, ?_, ?_⟩
  · exact (clear_then_fill staleSheet invEmpty true staleSheetOut 2 rfl (by decide)
      (by decide) (Or.inr (fun k _ => rfl))).1
  · exact (clear_then_fill staleSheet invEmpty true staleSheetOut 2 rfl (by decide)
      (by decide) (Or.inr (fun k _ => rfl))).2.1

/-- The spec's style-bleed template: (Model="X", Style="A", Blade="B1"),
(blank, blank, "B2"), (Model="Y", blank, "B3"), all with flex 85, on a
template that already has the Style/Color column. -/
def bleedSheet : Sheet :=
  ⟨fun r c =>
    if r = 1 && c = 2 then .str "Model"
    else if r = 1 && c = 3 then .str "Style/Color"
    else if r = 1 && c = 4 then .str "Blade"
    else if r = 1 && c = 5 then .str "Flex"
    else if r = 2 && c = 2 then .str "X"
    else if r = 2 && c = 3 then .str "A"
    else if r = 2 && c = 4 then .str "B1"
    else if r = 2 && c = 5 then .int 85
    else if r = 3 && c = 4 then .str "B2"
    else if r = 3 && c = 5 then .int 85
    else if r = 4 && c = 2 then .str "Y"
    else if r = 4 && c = 4 then .str "B3"
    else if r = 4 && c = 5 then .int 85
    else .none,
   4⟩

/-- C6: style-bleed containment.  Generally: when a row's effective model is
present and differs from the running `currentModel` and the row supplies
no style of its own, the running `currentStyle` is reset to absent and the
row's working style is absent.  Concretely, on the spec's three-row
template with fill-down on, the second data row's working style is "A"
while the third data row's working style is absent. -/
theorem style_bleed_reset :
    (∀ (fd : Bool) (st : ScanState) (mv sv bv : PyVal) (flex : Option ℤ) (b : String),
      (split_model_and_style mv).1 = some b →
      some b ≠ st.currentModel →
      pyOrS (norm_style sv) (norm_style_o (split_model_and_style mv).2) = Option.none →
      (reconRow fd st mv sv bv flex).st.currentStyle = Option.none ∧
      (reconRow fd st mv sv bv flex).wStyle = Option.none) ∧
    (rowOutcomeAt bleedSheet true 3).wStyle = some "A" ∧
    (rowOutcomeAt bleedSheet true 4).wStyle = Option.none ∧
    (rowOutcomeAt bleedSheet true 4).st.currentStyle = Option.none := by
  refine ⟨?_, by decide, by decide, by decide⟩
  intro fd st mv sv bv flex b hbase hdiff hnostyle
  unfold reconRow
  dsimp only
  rw [hnostyle, hbase]
  constructor
  · simp [truthyS, hdiff]
  · simp only [truthyS, pyOrS, hdiff]
    cases fd <;> simp [truthyS, hdiff]

theorem style_bleed_reset_witness :
    (split_model_and_style (.str "Y")).1 = some "Y" ∧
    some "Y" ≠ (⟨some "X", some "A", some "B1"⟩ : ScanState).currentModel ∧
    pyOrS (norm_style .none) (norm_style_o (split_model_and_style (.str "Y")).2) =
      Option.none ∧
    (reconRow true ⟨some "X", some "A", some "B1"⟩ (.str "Y") .none (.str "B3")
      (some 85)).st.currentStyle = Option.none ∧
    (reconRow true ⟨some "X", some "A", some "B1"⟩ (.str "Y") .none (.str "B3")
      (some 85)).wStyle = Option.none :=
  ⟨by decide, by decide, by decide,
   (style_bleed_reset.1 true ⟨some "X", some "A", some "B1"⟩ (.str "Y") .none (.str "B3")
     (some 85) "Y" (by decide) (by decide) (by decide)).1,
   (style_bleed_reset.1 true ⟨some "X", some "A", some "B1"⟩ (.str "Y") .none (.str "B3")
     (some 85) "Y" (by decide) (by decide) (by decide)).2⟩

theorem pyUpper_ne_empty (s : String) (h : s ≠ "") : pyUpper s ≠ "" := by
  intro hc
  apply h
  have hd : (pyUpper s).data = [] := congrArg String.data hc
  unfold pyUpper at hd
  simp only [List.map_eq_nil_iff] at hd
  exact String.ext hd

theorem norm_style_o_stripped (s0 : String) (hne : s0 ≠ "") (hst : pyStrip s0 = s0) :
    norm_style_o (some s0) = some (pyUpper s0) := by
  unfold norm_style_o norm_style norm_text
  dsimp only [pyStr]
  rw [hst, if_neg hne]

/-- In any row outcome, the style component of a complete key is the row's
working style. -/
theorem reconRow_key_style (fd : Bool) (st : ScanState) (mv sv bv : PyVal)
    (flex : Option ℤ) (k : Key)
    (h : (reconRow fd st mv sv bv flex).key = some k) :
    k.2.1 = (reconRow fd st mv sv bv flex).wStyle := by
  unfold reconRow at h ⊢
  dsimp only at h ⊢
  split at h
  · injection h with h'
    subst h'
    rfl
  · exact absurd h (by simp)

/-- The per-row effects of a Model cell with a trailing parenthetical and a
blank Style cell when fill-down is off: the Model cell is rewritten to the
base, the Style cell keeps its (blank) value, and the working style is the
normalized extracted style. -/
theorem reconRow_paren_noFd (st : ScanState) (mv sv bv : PyVal) (flex : Option ℤ)
    (b s0 : String)
    (hsplit : split_model_and_style mv = (some b, some s0))
    (hstyle : norm_style sv = Option.none) :
    (reconRow false st mv sv bv flex).mCell = .str b ∧
    (reconRow false st mv sv bv flex).sCell = sv ∧
    (reconRow false st mv sv bv flex).wStyle = some (pyUpper s0) := by
  obtain ⟨hbne, hs0ne, hs0st⟩ := split_some_some mv b s0 hsplit
  have hsp1 : (split_model_and_style mv).1 = some b := by rw [hsplit]
  have hsp2 : (split_model_and_style mv).2 = some s0 := by rw [hsplit]
  have hns : norm_style_o (some s0) = some (pyUpper s0) := norm_style_o_stripped s0 hs0ne hs0st
  unfold reconRow
  dsimp only
  rw [hsp1, hsp2, hstyle, hns]
  have htb : truthyS (some b) = true := by simp [truthyS, hbne]
  have hts0 : truthyS (some s0) = true := by simp [truthyS, hs0ne]
  have htup : truthyS (some (pyUpper s0)) = true := by
    simp [truthyS, pyUpper_ne_empty s0 hs0ne]
  refine ⟨?_, ?_, ?_⟩
  · simp [htb, hts0]
  · simp
  · simp [pyOrS, truthyS, pyUpper_ne_empty s0 hs0ne]

/-- C10: with fill-down disabled, a row whose Model cell carries a trailing
parenthetical style and whose Style cell is blank still gets its Model
cell rewritten to the stripped base, but the extracted style is never
written into the Style cell — it is only used (normalized) as the style
component of the lookup key. -/
theorem model_rewrite_without_filldown (sh : Sheet) (inv : InvMap) (out : Sheet)
    (r : Nat) (b s0 : String)
    (hok : apply_to_b sh inv false = .ok out)
    (h2 : 2 ≤ r) (h3 : r ≤ lastRowOf (ensure_style_column sh))
    (hsplit : split_model_and_style ((ensure_style_column sh).get r 2) = (some b, some s0))
    (hstyle : norm_style ((ensure_style_column sh).get r 3) = Option.none) :
    out.get r 2 = .str b ∧
    out.get r 3 = (ensure_style_column sh).get r 3 ∧
    (rowOutcomeAt (ensure_style_column sh) false r).wStyle = some (pyUpper s0) ∧
    (∀ k, (rowOutcomeAt (ensure_style_column sh) false r).key = some k →
      k.2.1 = some (pyUpper s0)) := by
  have spec := apply_to_b_row_spec sh inv false out r hok h2 h3
  have hrr := reconRow_paren_noFd
    (scanStateAt (ensure_style_column sh) false (List.range' 2 (r - 2))
      ⟨Option.none, Option.none, Option.none⟩)
    ((ensure_style_column sh).get r 2) ((ensure_style_column sh).get r 3)
    ((ensure_style_column sh).get r 4) (flexOf ((ensure_style_column sh).get r 5))
    b s0 hsplit hstyle
  have hro : rowOutcomeAt (ensure_style_column sh) false r =
      reconRow false
        (scanStateAt (ensure_style_column sh) false (List.range' 2 (r - 2))
          ⟨Option.none, Option.none, Option.none⟩)
        ((ensure_style_column sh).get r 2) ((ensure_style_column sh).get r 3)
        ((ensure_style_column sh).get r 4) (flexOf ((ensure_style_column sh).get r 5)) := rfl
  refine ⟨?_, ?_, ?_, ?_⟩
  · rw [spec.1, hro]
    exact hrr.1
  · rw [spec.2.1, hro]
    exact hrr.2.1
  · rw [hro]
    exact hrr.2.2
  · intro k hk
    rw [hro] at hk
    rw [reconRow_key_style _ _ _ _ _ _ k hk, ← hro]
    rw [hro]
    exact hrr.2.2

/-- An older-layout template (no Style/Color column) whose row 2 Model cell
embeds its style in a trailing parenthetical. -/
def parenSheet : Sheet :=
  ⟨fun r c =>
    if r = 1 && c = 2 then .str "Model"
    else if r = 1 && c = 3 then .str "Blade"
    else if r = 1 && c = 4 then .str "Flex"
    else if r = 2 && c = 2 then .str "FT8 Pro (RED)"
    else if r = 2 && c = 3 then .str "L92"
    else if r = 2 && c = 4 then .int 85
    else .none,
   2⟩

def parenSheetOut : Sheet :=
  match apply_to_b parenSheet invEmpty false with
  | .ok o => o
  | .error _ => parenSheet

theorem model_rewrite_without_filldown_witness :
    apply_to_b parenSheet invEmpty false = .ok parenSheetOut ∧
    split_model_and_style ((ensure_style_column parenSheet).get 2 2) =
      (some "FT8 Pro", some "RED") ∧
    parenSheetOut.get 2 2 = .str "FT8 Pro" ∧
    parenSheetOut.get 2 3 = (ensure_style_column parenSheet).get 2 3 ∧
    (ensure_style_column parenSheet).get 2 3 = PyVal.none ∧
    (rowOutcomeAt (ensure_style_column parenSheet) false 2).wStyle = some "RED" := by
  have h := model_rewrite_without_filldown parenSheet invEmpty parenSheetOut 2
    "FT8 Pro" "RED" rfl (by decide) (by decide) (by decide) (by decide)
  exact ⟨rfl, by decide, h.1, h.2.1, by decide, h.2.2.1⟩
